import Mathlib

/-!
Shallow embedding of the cryptographic signing core of the cpp-clob-client
repository (Keccak-256, EIP-712 typed-data encoding, RLP, EIP-155
transaction signing, L2 auth headers, hex helpers), together with theorems
settling the frozen claims about its specification.

Machine integers are modelled as `Nat` with explicit `% 2^64` (resp. `% 256`)
where overflow matters; fallible C++ code (thrown exceptions) is modelled
with `Except`/`Option`.
-/

namespace Clob

/-! ## Keccak-256 (include/clob/keccak.hpp)

The 1600-bit state is a list of 25 lanes, each a `Nat` kept below `2^64`
(all operations preserve this, mirroring the C++ `uint64_t` arithmetic).
-/

namespace Keccak

def U64 : Nat := 2 ^ 64

/-- `detail::ROUND_CONSTANTS` -/
def ROUND_CONSTANTS : List Nat :=
  [0x0000000000000001, 0x0000000000008082, 0x800000000000808a,
   0x8000000080008000, 0x000000000000808b, 0x0000000080000001,
   0x8000000080008081, 0x8000000000008009, 0x000000000000008a,
   0x0000000000000088, 0x0000000080008009, 0x000000008000000a,
   0x000000008000808b, 0x800000000000008b, 0x8000000000008089,
   0x8000000000008003, 0x8000000000008002, 0x8000000000000080,
   0x000000000000800a, 0x800000008000000a, 0x8000000080008081,
   0x8000000000008080, 0x0000000080000001, 0x8000000080008008]

/-- `detail::ROTATIONS` -/
def ROTATIONS : List Nat :=
  [1, 3, 6, 10, 15, 21, 28, 36, 45, 55, 2, 14,
   27, 41, 56, 8, 25, 43, 62, 18, 39, 61, 20, 44]

/-- `detail::PILN` -/
def PILN : List Nat :=
  [10, 7, 11, 17, 18, 3, 5, 16, 8, 21, 24, 4,
   15, 23, 19, 13, 12, 2, 20, 14, 22, 9, 6, 1]

/-- `detail::rotl64`: `(x << y) | (x >> (64 - y))` on `uint64_t`. -/
def rotl64 (x y : Nat) : Nat := ((x <<< y) % U64) ||| (x >>> (64 - y))

/-- Theta step: `bc[i] = xor of column i`, then `st[j+i] ^= bc[(i+4)%5] ^ rotl64(bc[(i+1)%5], 1)`. -/
def theta (st : List Nat) : List Nat :=
  let bc := (List.range 5).map fun i =>
    st.getD i 0 ^^^ st.getD (i + 5) 0 ^^^ st.getD (i + 10) 0 ^^^
      st.getD (i + 15) 0 ^^^ st.getD (i + 20) 0
  (List.range 25).map fun k =>
    st.getD k 0 ^^^ (bc.getD ((k % 5 + 4) % 5) 0 ^^^ rotl64 (bc.getD ((k % 5 + 1) % 5) 0) 1)

/-- One step of the Rho/Pi loop: carries `(t, st)`; at table entry `(j, rot)`
    performs `bc0 = st[j]; st[j] = rotl64(t, rot); t = bc0`. -/
def rhoPiStep (acc : Nat × List Nat) (e : Nat × Nat) : Nat × List Nat :=
  (acc.2.getD e.1 0, acc.2.set e.1 (rotl64 acc.1 e.2))

/-- Rho/Pi step: `t = st[1]`, then the 24-entry table walk. -/
def rhoPi (st : List Nat) : List Nat :=
  ((PILN.zip ROTATIONS).foldl rhoPiStep (st.getD 1 0, st)).2

/-- Chi step: `st[j+i] ^= (~bc[(i+1)%5]) & bc[(i+2)%5]` per 5-lane row;
    `~` on `uint64_t` is xor with `2^64 - 1` for lanes below `2^64`. -/
def chi (st : List Nat) : List Nat :=
  (List.range 25).map fun k =>
    let j := 5 * (k / 5)
    st.getD k 0 ^^^
      ((st.getD (j + (k % 5 + 1) % 5) 0 ^^^ (U64 - 1)) &&& st.getD (j + (k % 5 + 2) % 5) 0)

/-- One round of Keccak-f[1600]: theta, rho/pi, chi, iota. -/
def keccakRound (st : List Nat) (rc : Nat) : List Nat :=
  let st3 := chi (rhoPi (theta st))
  st3.set 0 (st3.getD 0 0 ^^^ rc)

/-- `detail::keccakf`: 24 rounds. -/
def keccakf (st : List Nat) : List Nat := ROUND_CONSTANTS.foldl keccakRound st

/-- Assemble a 64-bit lane from up to 8 bytes, little-endian
    (`lane |= temp[j*8+k] << 8k`). -/
def leLane (bytes : List Nat) : Nat := bytes.foldr (fun b acc => acc * 256 + b) 0

/-- XOR a 136-byte rate block into the first 17 lanes (`st[j] ^= lane`). -/
def xorBlock (st block : List Nat) : List Nat :=
  (List.range 25).map fun j =>
    if j < 17 then st.getD j 0 ^^^ leLane ((block.drop (8 * j)).take 8) else st.getD j 0

/-- The absorb loop of `hash256`: bytes are buffered; every full 136-byte
    block is XORed into the state and permuted. Returns the state and the
    residual partial block. -/
def absorb (st buf : List Nat) : List Nat → List Nat × List Nat
  | [] => (st, buf)
  | b :: rest =>
      let buf2 := buf ++ [b]
      if buf2.length = 136 then absorb (keccakf (xorBlock st buf2)) [] rest
      else absorb st buf2 rest

/-- Padding of the final partial block (`pt = buf.length < 136`):
    `memset(temp + pt, 0, RATE - pt); temp[pt] = 0x01; temp[RATE-1] |= 0x80`. -/
def padBlock (buf : List Nat) : List Nat :=
  let t := buf ++ 0x01 :: List.replicate (135 - buf.length) 0
  t.set 135 (t.getD 135 0 ||| 0x80)

/-- Squeeze: first 32 bytes of the state, 4 lanes little-endian
    (`hash[i*8+j] = st[i] >> 8j` as `uint8_t`). -/
def squeeze (st : List Nat) : List Nat :=
  (List.range 32).map fun k => (st.getD (k / 8) 0 >>> (8 * (k % 8))) % 256

/-- `keccak::hash256`. -/
def keccak256 (data : List Nat) : List Nat :=
  let p := absorb (List.replicate 25 0) [] data
  squeeze (keccakf (xorBlock p.1 (padBlock p.2)))

end Keccak

/-! ## Byte-level helpers shared by several components -/

/-- Fuel-bounded minimal big-endian byte loop
    (`while (v > 0) { bytes.insert(begin, v & 0xff); v >>= 8; }`).
    The loop runs at most `n` times, so fuel `n` is always sufficient. -/
def beBytesAux : Nat → Nat → List Nat
  | 0, _ => []
  | fuel + 1, n => if n = 0 then [] else beBytesAux fuel (n >>> 8) ++ [n % 256]

/-- Minimal big-endian byte representation of `n`; `beBytes 0 = []`. -/
def beBytes (n : Nat) : List Nat := beBytesAux n n

/-- Big-endian value of a byte list. -/
def fromBytesBE (l : List Nat) : Nat := l.foldl (fun a b => 256 * a + b) 0

/-- Left-pad a byte list with zero bytes to length `k`. -/
def leftPad (k : Nat) (l : List Nat) : List Nat :=
  List.replicate (k - l.length) 0 ++ l

/-! ## eip712 hex helpers (src/unnamed/part_000, `hex_to_bytes` / `bytes_to_hex`) -/

namespace Eip712

/-- Value of one hex digit, `none` on a non-hex character
    (`std::stoi(_, nullptr, 16)` raises `std::invalid_argument` when no digit
    parses; the embedding is used on hex-digit data). -/
def hexDigit? (c : Char) : Option Nat :=
  if '0' ≤ c ∧ c ≤ '9' then some (c.toNat - 48)
  else if 'a' ≤ c ∧ c ≤ 'f' then some (c.toNat - 87)
  else if 'A' ≤ c ∧ c ≤ 'F' then some (c.toNat - 55)
  else none

/-- The conversion loop of `eip712::hex_to_bytes`: two characters per byte
    via `std::stoi(substr(i,2), nullptr, 16)`; a trailing lone character or a
    chunk whose second character is not a hex digit parses as the one-digit
    prefix (`strtol` longest-valid-prefix semantics); a chunk starting with a
    non-digit throws. -/
def hexPairsToBytes : List Char → Option (List Nat)
  | [] => some []
  | [c] => (hexDigit? c).map fun a => [a]
  | c1 :: c2 :: rest =>
    match hexDigit? c1 with
    | none => none
    | some a =>
      match hexDigit? c2 with
      | some b => (hexPairsToBytes rest).map fun bs => (16 * a + b) :: bs
      | none => (hexPairsToBytes rest).map fun bs => a :: bs

/-- `eip712::hex_to_bytes`: strips a leading `0x`/`0X`, then two hex
    characters per byte. -/
def hex_to_bytes (s : String) : Option (List Nat) :=
  let cs := s.data
  let clean := if cs.take 2 = ['0', 'x'] ∨ cs.take 2 = ['0', 'X'] then cs.drop 2 else cs
  hexPairsToBytes clean

/-- Lowercase hex digit for a value below 16. -/
def toHexChar (n : Nat) : Char :=
  if n < 10 then Char.ofNat (48 + n) else Char.ofNat (87 + n)

/-- Two lowercase hex characters of a byte (`setw(2)`/`setfill('0')` output
    for a `uint8_t`). -/
def byteToHex (b : Nat) : List Char := [toHexChar (b / 16), toHexChar (b % 16)]

/-- `eip712::bytes_to_hex`. -/
def bytes_to_hex (bytes : List Nat) (withPfx : Bool) : String :=
  ⟨(if withPfx then ['0', 'x'] else []) ++ (bytes.map byteToHex).flatten⟩

/-- Byte sequence of an ASCII string (`std::string` content; one byte per
    character on the ASCII data this encoder is used with). -/
def strBytes (s : String) : List Nat := s.data.map Char.toNat

/-! ### The typed-data encoder (src/unnamed/part_000) -/

/-- The JSON values the eip712 encoder consumes: strings, unsigned 64-bit
    numbers, and objects. -/
inductive Json where
  | str (s : String)
  | num (n : Nat)
  | obj (kv : List (String × Json))

/-- One declared field of a struct type (`{"name": ..., "type": ...}`). -/
structure SField where
  name : String
  type : String
deriving DecidableEq

/-- The `types` schema: struct-type name to declared fields, in declared order. -/
abbrev Schema := List (String × List SField)

/-- Failure modes of the eip712 encoder. The first five model thrown
    `std::runtime_error`s; the last two model nlohmann-json library failures:
    `jsonAssert` is the `JSON_ASSERT` of `const json::operator[]` on a missing
    object key (an assertion abort / undefined behavior in release builds, not
    an exception reported to the caller), `jsonTypeError` is the library's
    `type_error` exception for a mismatched access. -/
inductive EErr where
  | typeNotFound (t : String)
  | unsupportedType (t : String)
  | numberTooLarge
  | invalidAddressLength
  | invalidHex
  | jsonAssert
  | jsonTypeError
deriving DecidableEq

/-- `value.get<std::string>()`. -/
def Json.getStr : Json → Except EErr String
  | .str s => .ok s
  | _ => .error .jsonTypeError

/-- Lookup in a JSON object's key-value list (`find` over the stored map). -/
def jlookup : List (String × Json) → String → Option Json
  | [], _ => none
  | (k, v) :: rest, name => if k = name then some v else jlookup rest name

/-- Schema lookup, modelling `types.contains` / `types[name]`. -/
def slookup : Schema → String → Option (List SField)
  | [], _ => none
  | (k, fs) :: rest, name => if k = name then some fs else slookup rest name

/-- `type.find(p) == 0` -/
def strPrefix (p s : String) : Bool := p.data.isPrefixOf s.data

/-- `encode_uint256(uint64_t)`: 32 bytes, value big-endian in the last 8
    (`result[31 - i] = (value >> i*8) & 0xFF` for `i < 8`, zero elsewhere). -/
def encode_uint256_u64 (value : Nat) : List Nat :=
  (List.range 32).map fun j => if 24 ≤ j then (value >>> ((31 - j) * 8)) % 256 else 0

/-- Digit values of the decimal string (`c - '0'`; faithful on decimal-digit
    strings, the domain of the claims). -/
def decDigits (s : String) : List Nat := s.data.map fun c => c.toNat - 48

/-- Base-10 fold starting from accumulator `a`. -/
def valA (a : Nat) (l : List Nat) : Nat := l.foldl (fun x c => x * 10 + c) a

/-- Base-10 value of a digit list. -/
def decVal (l : List Nat) : Nat := valA 0 l

/-- One pass of the divide-by-256 loop over the decimal digits, carrying the
    remainder and the quotient string: a quotient digit is appended only once
    the quotient is nonempty or `current >= 256` (skipping the quotient's
    leading zeros). Returns (quotient digits, remainder). -/
def divStepGo : List Nat → Nat → List Nat → List Nat × Nat
  | [], r, q => (q, r)
  | c :: cs, r, q =>
    let cur := r * 10 + c
    divStepGo cs (cur % 256) (if q ≠ [] ∨ 256 ≤ cur then q ++ [cur / 256] else q)

/-- One division of the decimal string by 256. -/
def divStep (d : List Nat) : List Nat × Nat := divStepGo d 0 []

theorem valA_append_single (a : Nat) (l : List Nat) (c : Nat) :
    valA a (l ++ [c]) = valA a l * 10 + c := by
  simp [valA, List.foldl_append]

theorem decVal_append_single (l : List Nat) (c : Nat) :
    decVal (l ++ [c]) = decVal l * 10 + c :=
  valA_append_single 0 l c

theorem divStepGo_spec :
    ∀ (cs : List Nat) (r : Nat) (q : List Nat),
      decVal (divStepGo cs r q).1 * 256 + (divStepGo cs r q).2
        = valA (decVal q * 256 + r) cs := by
  intro cs
  induction cs with
  | nil => intro r q; simp [divStepGo, valA]
  | cons c cst ih =>
    intro r q
    show decVal (divStepGo cst _ _).1 * 256 + (divStepGo cst _ _).2 = _
    rw [ih]
    have hacc :
        decVal (if q ≠ [] ∨ 256 ≤ r * 10 + c then q ++ [(r * 10 + c) / 256] else q) * 256
          + (r * 10 + c) % 256
        = (decVal q * 256 + r) * 10 + c := by
      by_cases hcond : q ≠ [] ∨ 256 ≤ r * 10 + c
      · rw [if_pos hcond, decVal_append_single]
        have := Nat.div_add_mod (r * 10 + c) 256
        ring_nf
        omega
      · rw [if_neg hcond]
        push_neg at hcond
        obtain ⟨hq, hcur⟩ := hcond
        subst hq
        have : (r * 10 + c) % 256 = r * 10 + c := Nat.mod_eq_of_lt hcur
        simp [decVal, valA, this]
    show _ = valA (decVal q * 256 + r) (c :: cst)
    have hstep : valA (decVal q * 256 + r) (c :: cst)
        = valA ((decVal q * 256 + r) * 10 + c) cst := by
      simp [valA]
    rw [hstep, ← hacc]

theorem divStepGo_r_lt :
    ∀ (cs : List Nat) (r : Nat) (q : List Nat), r < 256 → (divStepGo cs r q).2 < 256 := by
  intro cs
  induction cs with
  | nil => intro r q h; simpa [divStepGo] using h
  | cons c cst ih =>
    intro r q _
    exact ih _ _ (Nat.mod_lt _ (by norm_num))

theorem divStepGo_q_pos :
    ∀ (cs : List Nat) (r : Nat) (q : List Nat), (q = [] ∨ 0 < decVal q) →
      ((divStepGo cs r q).1 = [] ∨ 0 < decVal (divStepGo cs r q).1) := by
  intro cs
  induction cs with
  | nil => intro r q h; simpa [divStepGo] using h
  | cons c cst ih =>
    intro r q h
    apply ih
    by_cases hcond : q ≠ [] ∨ 256 ≤ r * 10 + c
    · rw [if_pos hcond]
      right
      rw [decVal_append_single]
      rcases h with hq | hq
      · subst hq
        rcases hcond with hne | hcur
        · simp at hne
        · have : 1 ≤ (r * 10 + c) / 256 := (Nat.one_le_div_iff (by norm_num)).mpr hcur
          simp [decVal, valA]
          omega
      · omega
    · rw [if_neg hcond]
      exact h

theorem divStep_spec (d : List Nat) :
    decVal (divStep d).1 * 256 + (divStep d).2 = decVal d := by
  have := divStepGo_spec d 0 []
  simpa [divStep, decVal, valA] using this

theorem divStep_r_lt (d : List Nat) : (divStep d).2 < 256 :=
  divStepGo_r_lt d 0 [] (by norm_num)

theorem divStep_q_pos (d : List Nat) :
    (divStep d).1 = [] ∨ 0 < decVal (divStep d).1 :=
  divStepGo_q_pos d 0 [] (Or.inl rfl)

/-- The while loop of the big-integer branch of `encode_uint256(string)`:
    repeatedly divide the decimal string by 256, prepending each remainder;
    an empty quotient is replaced by `"0"`, which ends the loop after
    contributing that iteration's remainder byte. -/
def toBytes (d : List Nat) : List Nat :=
  if d = [0] ∨ d = [] then []
  else
    (if h : (divStep d).1 = [] then [] else toBytes (divStep d).1) ++ [(divStep d).2]
termination_by decVal d
decreasing_by
  have hpos : 0 < decVal (divStep d).1 := by
    rcases divStep_q_pos d with hnil | hp
    · exact absurd hnil h
    · exact hp
  have hval := divStep_spec d
  omega

/-- `encode_uint256(const std::string&)`. `std::stoull` on a decimal-digit
    string succeeds exactly when the value fits in `uint64_t` (on other
    strings this embedding is not used); on failure the big-integer branch
    divides the string by 256 repeatedly, right-aligns the bytes into 32
    zeroed bytes, and throws "Number too large for uint256" past 32 bytes. -/
def encode_uint256_str (s : String) : Except EErr (List Nat) :=
  if s.data ≠ [] ∧ (∀ c ∈ s.data, '0' ≤ c ∧ c ≤ '9') ∧ decVal (decDigits s) < 2 ^ 64 then
    .ok (encode_uint256_u64 (decVal (decDigits s)))
  else
    if 32 < (toBytes (decDigits s)).length then .error .numberTooLarge
    else .ok (leftPad 32 (toBytes (decDigits s)))

/-- `eip712::encode_address`: 20 hex-decoded bytes left-padded into 32. -/
def encode_address (address : String) : Except EErr (List Nat) :=
  Option.elim (hex_to_bytes address) (.error .invalidHex) fun bytes =>
    if bytes.length = 20 then .ok (List.replicate 12 0 ++ bytes)
    else .error .invalidAddressLength

/-- `eip712::encode_string`: keccak of the string's bytes. -/
def encode_string (str : String) : List Nat := Keccak.keccak256 (strBytes str)

/-- The canonical type string `"Name(type1 name1,type2 name2,...)"` built by
    `type_hash`, comma-separated in declared order. -/
def commaJoin : List String → String
  | [] => ""
  | [s] => s
  | s :: rest => s ++ "," ++ commaJoin rest

/-- Hash of the canonical type string for a known struct type. -/
def typeHashBytes (primary_type : String) (fields : List SField) : List Nat :=
  Keccak.keccak256 (strBytes
    (primary_type ++ "(" ++ commaJoin (fields.map fun f => f.type ++ " " ++ f.name) ++ ")"))

/-- `eip712::type_hash`: throws "Type not found" when the schema lacks the
    type, otherwise hashes the canonical type string. -/
def type_hash (primary_type : String) (types : Schema) : Except EErr (List Nat) :=
  match slookup types primary_type with
  | none => .error (.typeNotFound primary_type)
  | some fields => .ok (typeHashBytes primary_type fields)

theorem jlookup_sizeOf :
    ∀ (kv : List (String × Json)) (name : String) (x : Json),
      jlookup kv name = some x → sizeOf x < sizeOf (Json.obj kv) := by
  intro kv
  induction kv with
  | nil => intro name x h; simp [jlookup] at h
  | cons p rest ih =>
    intro name x h
    obtain ⟨k, v⟩ := p
    by_cases hk : k = name
    · rw [jlookup, if_pos hk] at h
      obtain rfl : v = x := by injection h
      simp
      omega
    · rw [jlookup, if_neg hk] at h
      have := ih name x h
      simp at this ⊢
      omega

/-- The `type == "string"` branch of `encode_value`:
    `keccak256(value.get<std::string>())`. -/
def encodeStringValue (value : Json) : Except EErr (List Nat) :=
  match value with
  | .str s => .ok (encode_string s)
  | _ => .error .jsonTypeError

/-- The `type == "address"` branch of `encode_value`. -/
def encodeAddressValue (value : Json) : Except EErr (List Nat) :=
  match value with
  | .str s => encode_address s
  | _ => .error .jsonTypeError

/-- The shared `uint`/`int` branch of `encode_value`:
    `value.is_number() ? encode_uint256(get<uint64_t>) : encode_uint256(get<string>)`. -/
def encodeUintValue (value : Json) : Except EErr (List Nat) :=
  match value with
  | .num n => .ok (encode_uint256_u64 n)
  | .str s => encode_uint256_str s
  | .obj _ => .error .jsonTypeError

/-- The `type == "bytes"` branch of `encode_value`:
    `keccak256(hex_to_bytes(value.get<std::string>()))`. -/
def encodeBytesValue (value : Json) : Except EErr (List Nat) :=
  match value with
  | .str s =>
    Option.elim (hex_to_bytes s) (.error .invalidHex) fun bytes =>
      .ok (Keccak.keccak256 bytes)
  | _ => .error .jsonTypeError

mutual

/-- `eip712::encode_value`: dispatch on the type tag, in source order
    (`string`, `address`, prefix `uint`, prefix `int`, `bytes`, schema
    struct, else "Unsupported type"); the branch bodies are the factored
    helpers above. The struct branch is `hash_struct(type, value, types)`
    with the schema lookup already performed. -/
def encode_value (type : String) (value : Json) (types : Schema) :
    Except EErr (List Nat) :=
  if type = "string" then encodeStringValue value
  else if type = "address" then encodeAddressValue value
  else if strPrefix "uint" type then encodeUintValue value
  else if strPrefix "int" type then encodeUintValue value
  else if type = "bytes" then encodeBytesValue value
  else
    Option.elim (slookup types type) (.error (.unsupportedType type)) fun fields =>
      Except.map (fun rest => Keccak.keccak256 (typeHashBytes type fields ++ rest))
        (encode_fields fields value types)
termination_by (sizeOf value, 1, 0)

/-- The field loop of `eip712::encode_struct`: for each declared field, the
    unchecked access `data[field_name]` followed by `encode_value`, results
    concatenated in declared order. -/
def encode_fields (fields : List SField) (data : Json) (types : Schema) :
    Except EErr (List Nat) :=
  match fields with
  | [] => .ok []
  | f :: rest =>
    match data with
    | .obj kv =>
      match h : jlookup kv f.name with
      | some sub =>
        match encode_value f.type sub types with
        | .error e => .error e
        | .ok enc =>
          match encode_fields rest (Json.obj kv) types with
          | .error e => .error e
          | .ok more => .ok (enc ++ more)
      | none => .error .jsonAssert
    | .str s => .error .jsonTypeError
    | .num n => .error .jsonTypeError
termination_by (sizeOf data, 0, sizeOf fields)
decreasing_by
  · exact Prod.Lex.left _ _ (jlookup_sizeOf kv f.name sub h)
  · refine Prod.Lex.right _ (Prod.Lex.right _ ?_)
    simp

end

/-- `eip712::encode_struct`: type hash (throwing "Type not found" on an
    unknown type) followed by the encoded fields in declared order. -/
def encode_struct (primary_type : String) (data : Json) (types : Schema) :
    Except EErr (List Nat) :=
  match slookup types primary_type with
  | none => .error (.typeNotFound primary_type)
  | some fields =>
    match encode_fields fields data types with
    | .error e => .error e
    | .ok rest => .ok (typeHashBytes primary_type fields ++ rest)

/-- `eip712::hash_struct = keccak256(encode_struct(...))`. -/
def hash_struct (primary_type : String) (data : Json) (types : Schema) :
    Except EErr (List Nat) :=
  match encode_struct primary_type data types with
  | .error e => .error e
  | .ok enc => .ok (Keccak.keccak256 enc)

end Eip712

/-! ## RLP codec (src/src/order_builder.cpp, namespace `rlp`) -/

namespace Rlp

/-- `rlp::encode_string`. The long-string length loop is the minimal
    big-endian byte loop `beBytes`. -/
def encode_string (data : List Nat) : List Nat :=
  if data.length = 1 ∧ data.getD 0 0 < 0x80 then data
  else if data.length < 56 then (0x80 + data.length) :: data
  else (0xb7 + (beBytes data.length).length) :: (beBytes data.length ++ data)

/-- `rlp::encode_list`. -/
def encode_list (items : List (List Nat)) : List Nat :=
  let payload := items.flatten
  if payload.length < 56 then (0xc0 + payload.length) :: payload
  else (0xf7 + (beBytes payload.length).length) :: (beBytes payload.length ++ payload)

/-- `rlp::encode_integer` (argument is a `uint64_t`). -/
def encode_integer (value : Nat) : List Nat :=
  if value = 0 then encode_string [] else encode_string (beBytes value)

end Rlp

/-! ## Transaction encoding and signing (src/src/order_builder.cpp) -/

namespace Tx

/-- `std::stoul(chunk, nullptr, 16)` on a 2-character chunk: parses the
    longest valid prefix, throws (`none`) when no hex digit parses. -/
def hexPair? (c1 c2 : Char) : Option Nat :=
  match Eip712.hexDigit? c1 with
  | none => none
  | some a =>
    match Eip712.hexDigit? c2 with
    | some b => some (16 * a + b)
    | none => some a

/-- The conversion loop of the static `hex_to_bytes` of order_builder.cpp
    (runs on even-length data after zero-padding; the one-character case is
    unreachable there but modelled like `stoul` on a single character). -/
def hexPairs : List Char → Option (List Nat)
  | [] => some []
  | [c] => (Eip712.hexDigit? c).map fun a => [a]
  | c1 :: c2 :: rest =>
    match hexPair? c1 c2 with
    | none => none
    | some b => (hexPairs rest).map fun bs => b :: bs

/-- `while (h.length() >= 2 && h.substr(0,2) == "00") h = h.substr(2);` -/
def stripZeroPairs : List Char → List Char
  | '0' :: '0' :: rest => stripZeroPairs rest
  | l => l

/-- The prefix-stripping and odd-length zero-padding steps of the static
    `hex_to_bytes` (its `h` before the optional zero stripping). -/
def cleanHex (hex : String) : List Char :=
  let h0 := if hex.data.take 2 = ['0', 'x'] then hex.data.drop 2 else hex.data
  if h0.length % 2 = 1 then '0' :: h0 else h0

/-- The static `hex_to_bytes(hex, strip_leading_zeros)` of order_builder.cpp:
    strips a `0x` prefix, left-pads odd-length hex with `'0'`, optionally
    strips leading `"00"` pairs (mapping a residue of `""` or `"0"` to no
    bytes), then two hex characters per byte. -/
def hex_to_bytes (hex : String) (strip_leading_zeros : Bool) : Option (List Nat) :=
  if strip_leading_zeros then
    let h2 := stripZeroPairs (cleanHex hex)
    if h2 = [] ∨ h2 = ['0'] then some []
    else hexPairs h2
  else hexPairs (cleanHex hex)

/-- The static `bytes_to_hex` of order_builder.cpp (same output as the
    eip712 helper). -/
def bytes_to_hex (bytes : List Nat) (withPfx : Bool) : String :=
  Eip712.bytes_to_hex bytes withPfx

end Tx

/-- `clob::Transaction` (include/clob/eth_rpc.hpp). -/
structure Transaction where
  nonce : Nat
  gas_price : String
  gas_limit : Nat
  to_address : String
  value : String
  data : String
  chain_id : Nat

/-- `Signer::SignatureComponents` (r, s, v = recovery id). -/
structure SigComponents where
  r : List Nat
  s : List Nat
  v : Nat

/-- The unsigned EIP-155 9-item list assembled in `Transaction::sign`:
    `[nonce, gasPrice, gasLimit, to, value, data, chainId, "", ""]`.
    Only `value` is decoded with `strip_leading_zeros = true`. -/
def unsignedTxItems (tx : Transaction) : Option (List (List Nat)) :=
  match Tx.hex_to_bytes tx.gas_price false, Tx.hex_to_bytes tx.to_address false,
      Tx.hex_to_bytes tx.value true, Tx.hex_to_bytes tx.data false with
  | some gp, some tob, some vb, some db =>
    some [Rlp.encode_integer tx.nonce, Rlp.encode_string gp,
          Rlp.encode_integer tx.gas_limit, Rlp.encode_string tob,
          Rlp.encode_string vb, Rlp.encode_string db,
          Rlp.encode_integer tx.chain_id, Rlp.encode_string [], Rlp.encode_string []]
  | _, _, _, _ => none

/-- The RLP-encoded unsigned payload hashed for signing. -/
def buildUnsignedPayload (tx : Transaction) : Option (List Nat) :=
  (unsignedTxItems tx).map Rlp.encode_list

/-- `Transaction::sign`, parameterized by the signing primitive `signHash`
    (the external secp256k1 `Signer::sign_hash` for the given private key,
    returning `(r, s, recid)`). -/
def Transaction.sign (signHash : List Nat → SigComponents) (tx : Transaction) :
    Option String :=
  match Tx.hex_to_bytes tx.gas_price false, Tx.hex_to_bytes tx.to_address false,
      Tx.hex_to_bytes tx.value true, Tx.hex_to_bytes tx.data false with
  | some gp, some tob, some vb, some db =>
    let unsigned_tx := Rlp.encode_list
      [Rlp.encode_integer tx.nonce, Rlp.encode_string gp,
       Rlp.encode_integer tx.gas_limit, Rlp.encode_string tob,
       Rlp.encode_string vb, Rlp.encode_string db,
       Rlp.encode_integer tx.chain_id, Rlp.encode_string [], Rlp.encode_string []]
    let hash := Keccak.keccak256 unsigned_tx
    let sig := signHash hash
    let v_adjusted := sig.v + tx.chain_id * 2 + 35
    some (Tx.bytes_to_hex (Rlp.encode_list
      [Rlp.encode_integer tx.nonce, Rlp.encode_string gp,
       Rlp.encode_integer tx.gas_limit, Rlp.encode_string tob,
       Rlp.encode_string vb, Rlp.encode_string db,
       Rlp.encode_integer v_adjusted, Rlp.encode_string sig.r,
       Rlp.encode_string sig.s]) true)
  | _, _, _, _ => none

/-! ## L2 auth headers (ClobClient::create_l2_headers, order_builder.cpp) -/

namespace L2

/-- Standard base64 alphabet character for a 6-bit value. -/
def b64Char (n : Nat) : Char :=
  if n < 26 then Char.ofNat (65 + n)
  else if n < 52 then Char.ofNat (97 + (n - 26))
  else if n < 62 then Char.ofNat (48 + (n - 52))
  else if n = 62 then '+' else '/'

/-- Standard base64 encoding with `=` padding and no newlines
    (`BIO_f_base64` with `BIO_FLAGS_BASE64_NO_NL`), on byte values. -/
def b64Encode : List Nat → List Char
  | [] => []
  | [a] => [b64Char (a / 4), b64Char (a % 4 * 16), '=', '=']
  | [a, b] => [b64Char (a / 4), b64Char (a % 4 * 16 + b / 16), b64Char (b % 16 * 4), '=']
  | a :: b :: c :: rest =>
    b64Char (a / 4) :: b64Char (a % 4 * 16 + b / 16) ::
      b64Char (b % 16 * 4 + c / 64) :: b64Char (c % 64) :: b64Encode rest

/-- 6-bit value of a base64 character. -/
def b64Val? (c : Char) : Option Nat :=
  if 'A' ≤ c ∧ c ≤ 'Z' then some (c.toNat - 65)
  else if 'a' ≤ c ∧ c ≤ 'z' then some (c.toNat - 71)
  else if '0' ≤ c ∧ c ≤ '9' then some (c.toNat + 4)
  else if c = '+' then some 62
  else if c = '/' then some 63
  else none

/-- Standard base64 decoding of a well-formed padded string (the OpenSSL
    BIO base64 reader as used on the restored API secret). -/
def b64Decode : List Char → Option (List Nat)
  | [] => some []
  | [c1, c2, '=', '='] =>
    match b64Val? c1, b64Val? c2 with
    | some a, some b => some [a * 4 + b / 16]
    | _, _ => none
  | [c1, c2, c3, '='] =>
    match b64Val? c1, b64Val? c2, b64Val? c3 with
    | some a, some b, some c => some [a * 4 + b / 16, b % 16 * 16 + c / 4]
    | _, _, _ => none
  | c1 :: c2 :: c3 :: c4 :: rest =>
    match b64Val? c1, b64Val? c2, b64Val? c3, b64Val? c4 with
    | some a, some b, some c, some d =>
      (b64Decode rest).map fun bs =>
        (a * 4 + b / 16) :: (b % 16 * 16 + c / 4) :: (c % 64 * 64 + d) :: bs
    | _, _, _, _ => none
  | _ => none

/-- Restoring the URL-safe base64 API secret to standard base64:
    `'-' -> '+'`, `'_' -> '/'`, then `'='`-pad to a multiple of 4. -/
def restore_secret (secret : String) : String :=
  let mapped := secret.data.map fun c => if c = '-' then '+' else if c = '_' then '/' else c
  ⟨mapped ++ List.replicate ((4 - mapped.length % 4) % 4) '='⟩

/-- The final URL-safe substitution on the signature: `'+' -> '-'`, `'/' -> '_'`
    (the `=` padding is left in place). -/
def urlSafe (chars : List Char) : List Char :=
  chars.map fun c => if c = '+' then '-' else if c = '/' then '_' else c

/-- `message = std::to_string(timestamp) + method + request_path + body`. -/
def l2Message (timestamp : Nat) (method request_path body : String) : String :=
  toString timestamp ++ method ++ request_path ++ body

/-- The POLY_SIGNATURE computation of `ClobClient::create_l2_headers`,
    parameterized by the external HMAC-SHA256 primitive (OpenSSL `HMAC` with
    `EVP_sha256`, a function of key and message). `none` models the
    "Failed to decode API secret" failure. -/
def create_l2_signature (hmacSha256 : List Nat → List Nat → List Nat)
    (api_secret : String) (timestamp : Nat) (method request_path body : String) :
    Option String :=
  let message := l2Message timestamp method request_path body
  match b64Decode (restore_secret api_secret).data with
  | none => none
  | some secret =>
    some ⟨urlSafe (b64Encode (hmacSha256 secret (Eip712.strBytes message)))⟩

end L2

/-! ## Lemmas about the big-endian byte loop -/

theorem beBytesAux_zero (fuel : Nat) : beBytesAux fuel 0 = [] := by
  cases fuel <;> simp [beBytesAux]

theorem beBytesAux_congr :
    ∀ f1 f2 n, n ≤ f1 → n ≤ f2 → beBytesAux f1 n = beBytesAux f2 n := by
  intro f1
  induction f1 with
  | zero =>
    intro f2 n h1 _
    have hn : n = 0 := Nat.le_zero.mp h1
    subst hn
    simp [beBytesAux, beBytesAux_zero]
  | succ f ih =>
    intro f2 n h1 h2
    by_cases hn : n = 0
    · subst hn; simp [beBytesAux_zero]
    · obtain ⟨f2p, rfl⟩ : ∃ m, f2 = m + 1 := by
        cases f2 with
        | zero => exact absurd (Nat.le_zero.mp h2) hn
        | succ m => exact ⟨m, rfl⟩
      have hdiv : n >>> 8 < n := by
        rw [Nat.shiftRight_eq_div_pow]
        exact Nat.div_lt_self (Nat.pos_of_ne_zero hn) (by norm_num)
      have hle1 : n >>> 8 ≤ f := by omega
      have hle2 : n >>> 8 ≤ f2p := by omega
      simp only [beBytesAux, if_neg hn]
      rw [ih f2p (n >>> 8) hle1 hle2]

/-- Unfolding equation for `beBytes`. -/
theorem beBytes_eq (n : Nat) :
    beBytes n = if n = 0 then [] else beBytes (n / 256) ++ [n % 256] := by
  by_cases hn : n = 0
  · subst hn; rfl
  · obtain ⟨m, rfl⟩ : ∃ m, n = m + 1 := ⟨n - 1, by omega⟩
    rw [if_neg hn]
    have hs : (m + 1) >>> 8 = (m + 1) / 256 := by
      simp [Nat.shiftRight_eq_div_pow]
    show beBytesAux (m + 1) (m + 1) = _
    rw [show beBytesAux (m + 1) (m + 1)
        = beBytesAux m ((m + 1) >>> 8) ++ [(m + 1) % 256] from by simp [beBytesAux], hs]
    congr 1
    have hlt : (m + 1) / 256 < m + 1 := Nat.div_lt_self (by omega) (by norm_num)
    exact beBytesAux_congr m ((m + 1) / 256) ((m + 1) / 256) (by omega) (le_refl _)

theorem beBytes_zero : beBytes 0 = [] := rfl

theorem beBytes_eq_nil_iff (n : Nat) : beBytes n = [] ↔ n = 0 := by
  constructor
  · intro h
    by_contra hn
    rw [beBytes_eq, if_neg hn] at h
    simp at h
  · intro h; subst h; rfl

theorem fromBytesBE_append_single (l : List Nat) (b : Nat) :
    fromBytesBE (l ++ [b]) = 256 * fromBytesBE l + b := by
  simp [fromBytesBE, List.foldl_append]

theorem fromBytesBE_beBytes (n : Nat) : fromBytesBE (beBytes n) = n := by
  induction n using Nat.strong_induction_on with
  | _ n ih =>
    by_cases hn : n = 0
    · subst hn; rfl
    · rw [beBytes_eq, if_neg hn, fromBytesBE_append_single,
        ih (n / 256) (Nat.div_lt_self (Nat.pos_of_ne_zero hn) (by norm_num))]
      omega

theorem beBytes_len_le (n k : Nat) (h : n < 256 ^ k) : (beBytes n).length ≤ k := by
  induction n using Nat.strong_induction_on generalizing k with
  | _ n ih =>
    by_cases hn : n = 0
    · subst hn; simp [beBytes_zero]
    · cases k with
      | zero => simp at h; omega
      | succ kp =>
        rw [beBytes_eq, if_neg hn]
        have hdiv : n / 256 < 256 ^ kp := by
          rw [Nat.div_lt_iff_lt_mul (by norm_num : (0:Nat) < 256)]
          calc n < 256 ^ (kp + 1) := h
            _ = 256 ^ kp * 256 := by ring
        have := ih (n / 256) (Nat.div_lt_self (Nat.pos_of_ne_zero hn) (by norm_num)) kp hdiv
        simp only [List.length_append, List.length_cons, List.length_nil]
        omega

theorem beBytes_len_ge (n k : Nat) (h : 256 ^ k ≤ n) : k + 1 ≤ (beBytes n).length := by
  induction n using Nat.strong_induction_on generalizing k with
  | _ n ih =>
    have hn : n ≠ 0 := by
      have hpos : 0 < 256 ^ k := by positivity
      omega
    rw [beBytes_eq, if_neg hn]
    simp only [List.length_append, List.length_cons, List.length_nil]
    cases k with
    | zero => omega
    | succ kp =>
      have hdiv : 256 ^ kp ≤ n / 256 := by
        rw [Nat.le_div_iff_mul_le (by norm_num : (0:Nat) < 256)]
        calc 256 ^ kp * 256 = 256 ^ (kp + 1) := by ring
          _ ≤ n := h
      have := ih (n / 256) (Nat.div_lt_self (Nat.pos_of_ne_zero hn) (by norm_num)) kp hdiv
      omega

theorem beBytes_all_lt (n : Nat) : ∀ b ∈ beBytes n, b < 256 := by
  induction n using Nat.strong_induction_on with
  | _ n ih =>
    by_cases hn : n = 0
    · subst hn; simp [beBytes_zero]
    · rw [beBytes_eq, if_neg hn]
      intro b hb
      rcases List.mem_append.mp hb with hmem | hmem
      · exact ih (n / 256) (Nat.div_lt_self (Nat.pos_of_ne_zero hn) (by norm_num)) b hmem
      · simp at hmem; subst hmem; exact Nat.mod_lt _ (by norm_num)

theorem beBytes_head_ne_zero (n : Nat) (hn : 0 < n) : (beBytes n).head? ≠ some 0 := by
  induction n using Nat.strong_induction_on with
  | _ n ih =>
    rw [beBytes_eq, if_neg (Nat.pos_iff_ne_zero.mp hn)]
    by_cases hd : n / 256 = 0
    · rw [hd, beBytes_zero]
      have hlt : n < 256 := by
        by_contra hge
        have : 0 < n / 256 := Nat.div_pos (by omega) (by norm_num)
        omega
      have : n % 256 = n := Nat.mod_eq_of_lt hlt
      simp [this]
      omega
    · have hpos : 0 < n / 256 := Nat.pos_of_ne_zero hd
      have hlt : n / 256 < n := Nat.div_lt_self hn (by norm_num)
      have := ih (n / 256) hlt hpos
      rcases hB : beBytes (n / 256) with _ | ⟨b, bs⟩
      · exact absurd ((beBytes_eq_nil_iff _).mp hB) hd
      · rw [hB] at this
        simpa using this

/-! ## Lemmas about left padding -/

theorem leftPad_length (k : Nat) (l : List Nat) (h : l.length ≤ k) :
    (leftPad k l).length = k := by
  simp [leftPad]
  omega

theorem fromBytesBE_replicate_zero (m : Nat) (l : List Nat) :
    fromBytesBE (List.replicate m 0 ++ l) = fromBytesBE l := by
  induction m with
  | zero => simp
  | succ mp ih =>
    rw [List.replicate_succ]
    simpa [fromBytesBE] using ih

theorem fromBytesBE_leftPad (k : Nat) (l : List Nat) :
    fromBytesBE (leftPad k l) = fromBytesBE l :=
  fromBytesBE_replicate_zero _ _

theorem leftPad_beBytes_succ (k n : Nat) :
    leftPad (k + 1) (beBytes n) = leftPad k (beBytes (n / 256)) ++ [n % 256] := by
  by_cases hn : n = 0
  · subst hn
    simp [beBytes_zero, leftPad, List.replicate_succ' (n := k)]
  · rw [beBytes_eq, if_neg hn]
    simp only [leftPad, List.length_append, List.length_cons, List.length_nil]
    rw [show k + 1 - ((beBytes (n / 256)).length + (0 + 1)) = k - (beBytes (n / 256)).length
      by omega]
    simp [List.append_assoc]

theorem leftPad_beBytes_eq_map (k : Nat) :
    ∀ n, n < 256 ^ k →
      leftPad k (beBytes n) = (List.range k).map fun j => (n >>> ((k - 1 - j) * 8)) % 256 := by
  induction k with
  | zero =>
    intro n h
    have : n = 0 := by omega
    subst this
    simp [beBytes_zero, leftPad]
  | succ kp ih =>
    intro n h
    have hdiv : n / 256 < 256 ^ kp := by
      rw [Nat.div_lt_iff_lt_mul (by norm_num : (0:Nat) < 256)]
      calc n < 256 ^ (kp + 1) := h
        _ = 256 ^ kp * 256 := by ring
    rw [leftPad_beBytes_succ, ih (n / 256) hdiv, List.range_succ, List.map_append]
    congr 1
    · apply List.map_congr_left
      intro j hj
      have hjlt : j < kp := List.mem_range.mp hj
      have harith : (kp + 1 - 1 - j) * 8 = 8 + (kp - 1 - j) * 8 := by omega
      have h256 : n >>> 8 = n / 256 := by
        simp [Nat.shiftRight_eq_div_pow]
      rw [harith, Nat.shiftRight_add, h256]
    · simp

theorem pad32_beBytes (n : Nat) (h : n < 2 ^ 256) :
    leftPad 32 (beBytes n) = (List.range 32).map fun j => (n >>> ((31 - j) * 8)) % 256 := by
  have h2 : n < 256 ^ 32 := by
    calc n < 2 ^ 256 := h
      _ = 256 ^ 32 := by norm_num
  simpa using leftPad_beBytes_eq_map 32 n h2

/-! ## Keccak padding characterization (for C4) -/

theorem padBlock_short (buf : List Nat) (h : buf.length < 135) :
    Keccak.padBlock buf = buf ++ 0x01 :: (List.replicate (134 - buf.length) 0 ++ [0x80]) := by
  unfold Keccak.padBlock
  have hrep : List.replicate (135 - buf.length) (0 : Nat)
      = List.replicate (134 - buf.length) 0 ++ [0] := by
    rw [show 135 - buf.length = (134 - buf.length) + 1 by omega, List.replicate_succ']
  rw [hrep]
  set P : List Nat := buf ++ 0x01 :: List.replicate (134 - buf.length) 0 with hP
  have hassoc : buf ++ 0x01 :: (List.replicate (134 - buf.length) 0 ++ [(0 : Nat)])
      = P ++ [0] := by
    simp [hP]
  rw [hassoc]
  have hlen : P.length = 135 := by
    simp [hP]
    omega
  have hget : (P ++ [(0 : Nat)]).getD 135 0 = 0 := by
    rw [List.getD_append_right _ _ _ _ (by omega), hlen]
    simp
  show (P ++ [0]).set 135 ((P ++ [0]).getD 135 0 ||| 0x80) = _
  rw [hget, List.set_append, if_neg (by omega), hlen]
  simp [hP]

theorem padBlock_exact (buf : List Nat) (h : buf.length = 135) :
    Keccak.padBlock buf = buf ++ [0x81] := by
  unfold Keccak.padBlock
  rw [show 135 - buf.length = 0 by omega]
  simp only [List.replicate_zero]
  have hget : (buf ++ [(0x01 : Nat)]).getD 135 0 = 0x01 := by
    rw [List.getD_append_right _ _ _ _ (by omega), h]
    simp
  rw [hget, List.set_append, if_neg (by omega), h]
  simp

theorem keccak256_length_eq (data : List Nat) : (Keccak.keccak256 data).length = 32 := by
  simp [Keccak.keccak256, Keccak.squeeze]

/-! # Claim theorems -/

/-- C4: for every input byte string the Keccak-256 hash returns exactly 32
    bytes; the final partial rate block is padded by placing `0x01` at the
    first free byte (merging with the `0x80` into `0x81` when that byte is
    byte 135) and OR-ing `0x80` into byte 135 of the 136-byte rate block; and
    the digests match the published Keccak-256 reference vectors for the
    empty string and the short ASCII strings "abc" and "Hello, World!". -/
theorem keccak256_spec :
    (∀ data : List Nat, (Keccak.keccak256 data).length = 32)
    ∧ (∀ buf : List Nat, buf.length < 135 →
        Keccak.padBlock buf = buf ++ 0x01 :: (List.replicate (134 - buf.length) 0 ++ [0x80]))
    ∧ (∀ buf : List Nat, buf.length = 135 → Keccak.padBlock buf = buf ++ [0x81])
    ∧ Keccak.keccak256 [] =
        [0xc5, 0xd2, 0x46, 0x01, 0x86, 0xf7, 0x23, 0x3c,
         0x92, 0x7e, 0x7d, 0xb2, 0xdc, 0xc7, 0x03, 0xc0,
         0xe5, 0x00, 0xb6, 0x53, 0xca, 0x82, 0x27, 0x3b,
         0x7b, 0xfa, 0xd8, 0x04, 0x5d, 0x85, 0xa4, 0x70]
    ∧ Keccak.keccak256 [0x61, 0x62, 0x63] =
        [0x4e, 0x03, 0x65, 0x7a, 0xea, 0x45, 0xa9, 0x4f,
         0xc7, 0xd4, 0x7b, 0xa8, 0x26, 0xc8, 0xd6, 0x67,
         0xc0, 0xd1, 0xe6, 0xe3, 0x3a, 0x64, 0xa0, 0x36,
         0xec, 0x44, 0xf5, 0x8f, 0xa1, 0x2d, 0x6c, 0x45] := by
  refine ⟨keccak256_length_eq, padBlock_short, padBlock_exact, ?_, ?_⟩
  · set_option maxRecDepth 10000 in decide
  · set_option maxRecDepth 10000 in decide

/-- Witness for C4: the quantified parts applied at concrete inputs. -/
theorem keccak256_spec_witness :
    (Keccak.keccak256 [1, 2, 3]).length = 32
    ∧ Keccak.padBlock [7] = 7 :: 0x01 :: (List.replicate 133 0 ++ [0x80])
    ∧ Keccak.padBlock (List.replicate 135 3) = List.replicate 135 3 ++ [0x81] := by
  refine ⟨keccak256_spec.1 [1, 2, 3], ?_, ?_⟩
  · have := keccak256_spec.2.1 [7] (by decide)
    simpa using this
  · exact keccak256_spec.2.2.1 (List.replicate 135 3) (by simp)

/-- C6: RLP integer encoding is minimal big-endian with no leading zero
    bytes: `encode_integer 0` is exactly `[0x80]` (the encoding of the empty
    string); a single byte below `0x80` encodes as itself; any other string
    of length at most 55 gets the `0x80 + length` prefix; and for a positive
    `uint64_t` the integer encodes as the RLP string of its minimal
    big-endian bytes, whose first byte is nonzero and whose value is the
    integer. -/
theorem rlp_minimal_integer_encoding :
    Rlp.encode_integer 0 = [0x80]
    ∧ (∀ b : Nat, b < 0x80 → Rlp.encode_string [b] = [b])
    ∧ (∀ data : List Nat, 1 ≤ data.length → data.length ≤ 55 →
        (∀ b, data = [b] → 0x80 ≤ b) →
        Rlp.encode_string data = (0x80 + data.length) :: data)
    ∧ (∀ v : Nat, 0 < v → v < 2 ^ 64 →
        Rlp.encode_integer v = Rlp.encode_string (beBytes v)
        ∧ (beBytes v).head? ≠ some 0
        ∧ fromBytesBE (beBytes v) = v) := by
  refine ⟨by decide, ?_, ?_, ?_⟩
  · intro b hb
    simp [Rlp.encode_string, hb]
  · intro data h1 h55 hsingle
    have hcond : ¬(data.length = 1 ∧ data.getD 0 0 < 0x80) := by
      rintro ⟨hlen, hbyte⟩
      rcases data with _ | ⟨b, rest⟩
      · simp at hlen
      · rcases rest with _ | ⟨c, rest2⟩
        · have := hsingle b rfl
          simp [List.getD] at hbyte
          omega
        · simp at hlen
    rw [Rlp.encode_string, if_neg hcond, if_pos (by omega)]
  · intro v hv _
    exact ⟨by rw [Rlp.encode_integer, if_neg (by omega)],
      beBytes_head_ne_zero v hv, fromBytesBE_beBytes v⟩

/-- Witness for C6: the single-byte rule at `[0x01]`, the prefix rule at
    `[0x80, 0x01]`, and the minimal-big-endian rule at 1024. -/
theorem rlp_minimal_integer_encoding_witness :
    Rlp.encode_string [0x01] = [0x01]
    ∧ Rlp.encode_string [0x80, 0x01] = [0x82, 0x80, 0x01]
    ∧ Rlp.encode_integer 1024 = [0x82, 0x04, 0x00] := by
  refine ⟨rlp_minimal_integer_encoding.2.1 1 (by decide), ?_, ?_⟩
  · have := rlp_minimal_integer_encoding.2.2.1 [0x80, 0x01]
      (by decide) (by decide) (by intro b hb; simp at hb)
    simpa using this
  · rw [(rlp_minimal_integer_encoding.2.2.2 1024 (by decide) (by decide)).1]
    decide

/-! ## Hex round-trip lemmas (for C10) -/

theorem hexDigit_toHexChar (x : Nat) (hx : x < 16) :
    Eip712.hexDigit? (Eip712.toHexChar x) = some x := by
  interval_cases x <;> decide

theorem toHexChar_ne_x (x : Nat) (hx : x < 16) :
    Eip712.toHexChar x ≠ 'x' ∧ Eip712.toHexChar x ≠ 'X' := by
  interval_cases x <;> decide

theorem hexPairs_roundtrip (bytes : List Nat) (h : ∀ b ∈ bytes, b < 256) :
    Eip712.hexPairsToBytes ((bytes.map Eip712.byteToHex).flatten) = some bytes := by
  induction bytes with
  | nil => rfl
  | cons b bs ih =>
    have hb : b < 256 := h b (by simp)
    have hdiv : b / 16 < 16 := by omega
    have hmod : b % 16 < 16 := Nat.mod_lt _ (by norm_num)
    simp only [List.map_cons, List.flatten_cons, Eip712.byteToHex,
      List.cons_append, List.nil_append]
    rw [Eip712.hexPairsToBytes, hexDigit_toHexChar _ hdiv, hexDigit_toHexChar _ hmod]
    rw [ih (fun x hx => h x (by simp [hx]))]
    simp [Nat.div_add_mod]

/-- C10: the eip712 hex helpers round-trip: for every byte vector,
    `hex_to_bytes (bytes_to_hex b)` recovers `b`, both with and without the
    `0x` prefix (the hex produced is always even-length, two characters per
    byte). -/
theorem hex_roundtrip (bytes : List Nat) (h : ∀ b ∈ bytes, b < 256) :
    Eip712.hex_to_bytes (Eip712.bytes_to_hex bytes true) = some bytes
    ∧ Eip712.hex_to_bytes (Eip712.bytes_to_hex bytes false) = some bytes := by
  have hmk : ∀ l : List Char, Eip712.hex_to_bytes ⟨l⟩
      = Eip712.hexPairsToBytes
          (if l.take 2 = ['0', 'x'] ∨ l.take 2 = ['0', 'X'] then l.drop 2 else l) :=
    fun l => rfl
  constructor
  · rw [show Eip712.bytes_to_hex bytes true
        = ⟨'0' :: 'x' :: (bytes.map Eip712.byteToHex).flatten⟩ from rfl, hmk]
    rw [if_pos (Or.inl (by simp))]
    simpa using hexPairs_roundtrip bytes h
  · rw [show Eip712.bytes_to_hex bytes false
        = ⟨(bytes.map Eip712.byteToHex).flatten⟩ from rfl, hmk]
    have hcond : ¬((bytes.map Eip712.byteToHex).flatten.take 2 = ['0', 'x']
        ∨ (bytes.map Eip712.byteToHex).flatten.take 2 = ['0', 'X']) := by
      rcases bytes with _ | ⟨b, bs⟩
      · simp
      · have hb : b < 256 := h b (by simp)
        have hmod : b % 16 < 16 := Nat.mod_lt _ (by norm_num)
        have hx := (toHexChar_ne_x (b % 16) hmod).1
        have hX := (toHexChar_ne_x (b % 16) hmod).2
        simp only [List.map_cons, List.flatten_cons, Eip712.byteToHex,
          List.cons_append, List.nil_append]
        intro hor
        rcases hor with heq | heq <;> (simp at heq; tauto)
    rw [if_neg hcond]
    exact hexPairs_roundtrip bytes h

/-- Witness for C10 at a concrete byte vector. -/
theorem hex_roundtrip_witness :
    Eip712.hex_to_bytes (Eip712.bytes_to_hex [0, 171, 255] true) = some [0, 171, 255]
    ∧ Eip712.hex_to_bytes (Eip712.bytes_to_hex [0, 171, 255] false) = some [0, 171, 255] :=
  hex_roundtrip [0, 171, 255] (by decide)

/-! ## uint256 string encoding lemmas (for C3) -/

theorem toBytes_eq_beBytes_aux :
    ∀ n : Nat, ∀ d : List Nat, Eip712.decVal d = n → 0 < n →
      Eip712.toBytes d = beBytes n := by
  intro n
  induction n using Nat.strong_induction_on with
  | _ n ih =>
    intro d hdn hpos
    subst hdn
    have hne : ¬(d = [0] ∨ d = []) := by
      rintro (rfl | rfl) <;> simp [Eip712.decVal, Eip712.valA] at hpos
    have hspec := Eip712.divStep_spec d
    have hrlt := Eip712.divStep_r_lt d
    have hqpos := Eip712.divStep_q_pos d
    rw [Eip712.toBytes, if_neg hne, beBytes_eq, if_neg (by omega)]
    have hr : (Eip712.divStep d).2 = Eip712.decVal d % 256 := by omega
    have hq : Eip712.decVal (Eip712.divStep d).1 = Eip712.decVal d / 256 := by omega
    by_cases hqe : (Eip712.divStep d).1 = []
    · rw [dif_pos hqe]
      have hq0 : Eip712.decVal (Eip712.divStep d).1 = 0 := by
        rw [hqe]; rfl
      rw [← hq, hq0, beBytes_zero, hr]
    · rw [dif_neg hqe]
      have hqpos2 : 0 < Eip712.decVal (Eip712.divStep d).1 := hqpos.resolve_left hqe
      have hlt : Eip712.decVal (Eip712.divStep d).1 < Eip712.decVal d := by omega
      rw [ih _ hlt _ rfl hqpos2, hq, hr]

theorem toBytes_eq_beBytes (d : List Nat) (hpos : 0 < Eip712.decVal d) :
    Eip712.toBytes d = beBytes (Eip712.decVal d) :=
  toBytes_eq_beBytes_aux _ d rfl hpos

theorem encode_uint256_u64_eq (v : Nat) (h : v < 2 ^ 64) :
    Eip712.encode_uint256_u64 v = leftPad 32 (beBytes v) := by
  rw [pad32_beBytes v (by calc v < 2 ^ 64 := h
        _ ≤ 2 ^ 256 := by norm_num)]
  apply List.map_congr_left
  intro j hj
  have hjlt : j < 32 := List.mem_range.mp hj
  by_cases h24 : 24 ≤ j
  · simp [Eip712.encode_uint256_u64, h24]
  · have hshift : 64 ≤ (31 - j) * 8 := by omega
    have hzero : v >>> ((31 - j) * 8) = 0 := by
      rw [Nat.shiftRight_eq_div_pow]
      apply Nat.div_eq_of_lt
      calc v < 2 ^ 64 := h
        _ ≤ 2 ^ ((31 - j) * 8) := Nat.pow_le_pow_right (by norm_num) hshift
    simp [Eip712.encode_uint256_u64, h24, hzero]

/-- C3: for every decimal-digit string of value `n < 2^256`,
    `encode_uint256` (string overload) returns the 32-byte big-endian
    representation of `n` (left-padded minimal big-endian bytes; equivalently
    byte `j` is `(n >> (31-j)*8) & 0xFF`), including values beyond 64 bits
    via the base-256 long-division path; big-endian decoding of the result
    recovers `n`; and a value `>= 2^256` fails with the
    "Number too large for uint256" EncodingError. -/
theorem encode_uint256_str_spec (s : String) (n : Nat) (hne : s.data ≠ [])
    (hdig : ∀ c ∈ s.data, '0' ≤ c ∧ c ≤ '9')
    (hn : Eip712.decVal (Eip712.decDigits s) = n) :
    (n < 2 ^ 256 →
      Eip712.encode_uint256_str s = .ok (leftPad 32 (beBytes n))
      ∧ (leftPad 32 (beBytes n)).length = 32
      ∧ fromBytesBE (leftPad 32 (beBytes n)) = n
      ∧ leftPad 32 (beBytes n)
          = (List.range 32).map fun j => (n >>> ((31 - j) * 8)) % 256)
    ∧ (2 ^ 256 ≤ n → Eip712.encode_uint256_str s = .error .numberTooLarge) := by
  constructor
  · intro hlt
    have hlen32 : (beBytes n).length ≤ 32 :=
      beBytes_len_le n 32 (by calc n < 2 ^ 256 := hlt
        _ = 256 ^ 32 := by norm_num)
    refine ⟨?_, leftPad_length 32 _ hlen32,
      by rw [fromBytesBE_leftPad, fromBytesBE_beBytes], pad32_beBytes n hlt⟩
    by_cases hfast : n < 2 ^ 64
    · rw [Eip712.encode_uint256_str, if_pos ⟨hne, hdig, by rw [hn]; exact hfast⟩, hn,
        encode_uint256_u64_eq n hfast]
    · have hpos : 0 < Eip712.decVal (Eip712.decDigits s) := by
        rw [hn]
        have h64 : (0:Nat) < 2 ^ 64 := by positivity
        omega
      have htb : Eip712.toBytes (Eip712.decDigits s) = beBytes n := by
        rw [toBytes_eq_beBytes _ hpos, hn]
      rw [Eip712.encode_uint256_str, hn, if_neg (by tauto), htb,
        if_neg (by omega)]
  · intro hge
    have hpos : 0 < Eip712.decVal (Eip712.decDigits s) := by
      rw [hn]
      have h256 : (0:Nat) < 2 ^ 256 := by positivity
      omega
    have hnotfast : ¬ n < 2 ^ 64 := by
      have hle : (2:Nat) ^ 64 ≤ 2 ^ 256 := by norm_num
      omega
    have htb : Eip712.toBytes (Eip712.decDigits s) = beBytes n := by
      rw [toBytes_eq_beBytes _ hpos, hn]
    have hlong : 32 < (beBytes n).length := by
      have h33 := beBytes_len_ge n 32
        (le_trans (le_of_eq (by norm_num : (256:Nat) ^ 32 = 2 ^ 256)) hge)
      omega
    rw [Eip712.encode_uint256_str, hn, if_neg (by tauto), htb, if_pos hlong]

set_option maxRecDepth 40000 in
/-- Witness for C3: the first value past 64 bits, `2^64`, and the first value
    past 256 bits, `2^256`. -/
theorem encode_uint256_str_spec_witness :
    Eip712.encode_uint256_str "18446744073709551616"
      = .ok [0, 0, 0, 0, 0, 0, 0, 0, 0, 0, 0, 0, 0, 0, 0, 0,
             0, 0, 0, 0, 0, 0, 0, 1, 0, 0, 0, 0, 0, 0, 0, 0]
    ∧ Eip712.encode_uint256_str
        "115792089237316195423570985008687907853269984665640564039457584007913129639936"
      = .error .numberTooLarge := by
  constructor
  · rw [((encode_uint256_str_spec "18446744073709551616" (2 ^ 64) (by decide)
      (by decide) (by decide)).1 (by decide)).1]
    exact congrArg Except.ok (by decide)
  · exact (encode_uint256_str_spec _ (2 ^ 256) (by decide) (by decide) (by decide)).2
      (by decide)

/-! ## Struct hashing and the missing-field behavior (for C1) -/

theorem encode_fields_missing_not_ok :
    ∀ (fields : List Eip712.SField) (kv : List (String × Eip712.Json))
      (types : Eip712.Schema) (f : Eip712.SField),
      f ∈ fields → Eip712.jlookup kv f.name = none →
      ∀ enc, Eip712.encode_fields fields (Eip712.Json.obj kv) types ≠ .ok enc := by
  intro fields
  induction fields with
  | nil => intro kv types f hf; simp at hf
  | cons g rest ih =>
    intro kv types f hf hnone enc
    rw [Eip712.encode_fields]
    rcases List.mem_cons.mp hf with rfl | hmem
    · rw [hnone]
      simp
    · rcases hg : Eip712.jlookup kv g.name with _ | sub
      · simp
      · rcases hv : Eip712.encode_value g.type sub types with e | encg
        · simp [hv]
        · rcases hrest : Eip712.encode_fields rest (Eip712.Json.obj kv) types with e2 | more
          · simp [hv, hrest]
          · exact absurd hrest (ih kv types f hmem hnone more)

/-- C1 (evidence for the code bug): `hash_struct` performs no missing-field
    check. At a value missing the declared field, the unchecked
    `data[field_name]` access is the json library's assertion failure
    (`jsonAssert`, undefined behavior in release builds), not a
    MissingFieldError reported to the caller; a value missing any declared
    field never produces a hash; and for complete (successfully encoded)
    values, `hash_struct` is `Keccak256(typeHash ‖ field encodings in
    declared order)`. -/
theorem hash_struct_missing_field :
    Eip712.hash_struct "Mail" (Eip712.Json.obj [])
        [("Mail", [Eip712.SField.mk "to" "address"])] = .error .jsonAssert
    ∧ (∀ (fields : List Eip712.SField) (kv : List (String × Eip712.Json))
        (types : Eip712.Schema) (f : Eip712.SField),
        f ∈ fields → Eip712.jlookup kv f.name = none →
        ∀ enc, Eip712.encode_fields fields (Eip712.Json.obj kv) types ≠ .ok enc)
    ∧ (∀ (ty : String) (fields : List Eip712.SField) (data : Eip712.Json)
        (types : Eip712.Schema) (enc : List Nat),
        Eip712.slookup types ty = some fields →
        Eip712.encode_fields fields data types = .ok enc →
        Eip712.hash_struct ty data types
          = .ok (Keccak.keccak256 (Eip712.typeHashBytes ty fields ++ enc))) := by
  refine ⟨?_, encode_fields_missing_not_ok, ?_⟩
  · rw [Eip712.hash_struct, Eip712.encode_struct]
    simp [Eip712.slookup, Eip712.encode_fields, Eip712.jlookup]
  · intro ty fields data types enc hlook hfields
    rw [Eip712.hash_struct, Eip712.encode_struct, hlook]
    simp [hfields]

/-- Witness for C1: the field loop rejects the empty object for a declared
    field, and a complete one-field struct value hashes to
    `Keccak256(typeHash ‖ encoded field)`. -/
theorem hash_struct_missing_field_witness :
    (∀ enc, Eip712.encode_fields [Eip712.SField.mk "to" "address"] (Eip712.Json.obj [])
        [("Mail", [Eip712.SField.mk "to" "address"])] ≠ .ok enc)
    ∧ Eip712.hash_struct "Mail"
        (Eip712.Json.obj [("to", Eip712.Json.str "0x1111111111111111111111111111111111111111")])
        [("Mail", [Eip712.SField.mk "to" "address"])]
      = .ok (Keccak.keccak256
          (Eip712.typeHashBytes "Mail" [Eip712.SField.mk "to" "address"]
            ++ (List.replicate 12 0 ++ List.replicate 20 0x11))) := by
  constructor
  · exact hash_struct_missing_field.2.1 _ [] _ (Eip712.SField.mk "to" "address")
      (by simp) rfl
  · apply hash_struct_missing_field.2.2 _ _ _ _ _ (by simp [Eip712.slookup])
    rw [Eip712.encode_fields]
    have haddr : Eip712.encodeAddressValue
        (Eip712.Json.str "0x1111111111111111111111111111111111111111")
        = .ok (List.replicate 12 0 ++ List.replicate 20 0x11) := by
      show Except.ok _ = _
      exact congrArg Except.ok (by decide)
    simp [Eip712.jlookup, Eip712.encode_value, haddr, Eip712.encode_fields]

/-! ## The encode_value dispatch (for C5) -/

/-- The tags the `encode_value` dispatch accepts: `"string"`, `"address"`,
    a `"uint"` or `"int"` prefix, `"bytes"`, or a schema struct name. -/
def Eip712.recognizedTag (ty : String) (types : Eip712.Schema) : Prop :=
  ty = "string" ∨ ty = "address" ∨ Eip712.strPrefix "uint" ty = true
    ∨ Eip712.strPrefix "int" ty = true ∨ ty = "bytes"
    ∨ (Eip712.slookup types ty).isSome = true

instance (ty : String) (types : Eip712.Schema) :
    Decidable (Eip712.recognizedTag ty types) := by
  unfold Eip712.recognizedTag
  infer_instance

/-- C5 (amended): `encode_value` raises UnsupportedTypeError for the
    examined tag exactly when the tag is unrecognized in the code's sense —
    not `"string"`/`"address"`/`"bytes"`, not *starting with* `"uint"` or
    `"int"`, and not a schema struct name. A malformed tag that merely starts
    with `"uint"`/`"int"` (such as `"uintXYZ"` or `"interest"`) is silently
    integer-encoded, not rejected; a recognized non-struct tag never yields
    UnsupportedTypeError (a schema struct tag can still propagate one from a
    nested field's unrecognized tag). -/
theorem encode_value_unsupported_iff :
    (∀ (ty : String) (v : Eip712.Json) (types : Eip712.Schema),
      ¬ Eip712.recognizedTag ty types →
        Eip712.encode_value ty v types = .error (.unsupportedType ty))
    ∧ (∀ (ty : String) (v : Eip712.Json) (types : Eip712.Schema),
        Eip712.recognizedTag ty types → (Eip712.slookup types ty).isNone →
        ∀ t, Eip712.encode_value ty v types ≠ .error (.unsupportedType t)) := by
  constructor
  · intro ty v types hrec
    simp only [Eip712.recognizedTag, not_or] at hrec
    obtain ⟨h1, h2, h3, h4, h5, h6⟩ := hrec
    have hnone : Eip712.slookup types ty = none :=
      Option.not_isSome_iff_eq_none.mp (by simpa using h6)
    rw [Eip712.encode_value.eq_def, if_neg h1, if_neg h2, if_neg h3, if_neg h4, if_neg h5,
      hnone]
    rfl
  · intro ty v types hrec hnone t heq
    have hnone2 : Eip712.slookup types ty = none := Option.isNone_iff_eq_none.mp hnone
    rw [Eip712.encode_value.eq_def] at heq
    split_ifs at heq with h1 h2 h3 h4 h5
    · rcases v with vs | vn | vkv <;> simp [Eip712.encodeStringValue] at heq
    · rcases v with vs | vn | vkv <;>
        simp only [Eip712.encodeAddressValue] at heq
      · rw [Eip712.encode_address] at heq
        rcases hhex : Eip712.hex_to_bytes vs with _ | bytes <;> rw [hhex] at heq
        · simp [Option.elim] at heq
        · simp only [Option.elim] at heq
          split_ifs at heq <;> simp at heq
      · simp at heq
      · simp at heq
    · rcases v with vs | vn | vkv <;> simp only [Eip712.encodeUintValue] at heq
      · rw [Eip712.encode_uint256_str] at heq
        split_ifs at heq <;> simp at heq
      · simp at heq
      · simp at heq
    · rcases v with vs | vn | vkv <;> simp only [Eip712.encodeUintValue] at heq
      · rw [Eip712.encode_uint256_str] at heq
        split_ifs at heq <;> simp at heq
      · simp at heq
      · simp at heq
    · rcases v with vs | vn | vkv <;> simp only [Eip712.encodeBytesValue] at heq
      · rcases hhex : Eip712.hex_to_bytes vs with _ | bytes <;> rw [hhex] at heq <;>
          simp [Option.elim] at heq
      · simp at heq
      · simp at heq
    · rw [hnone2] at heq
      simp [Eip712.recognizedTag, h1, h2, h3, h4, h5, hnone2] at hrec

/-- Counterexample for C5 as frozen: the malformed tag `"interest"` (not a
    valid `intN` tag) is not rejected with UnsupportedTypeError — it is
    silently encoded as an integer. -/
theorem encode_value_interest_not_rejected :
    Eip712.encode_value "interest" (Eip712.Json.num 5) []
      = .ok (Eip712.encode_uint256_u64 5)
    ∧ Eip712.encode_value "interest" (Eip712.Json.num 5) []
      ≠ .error (.unsupportedType "interest") := by
  have hval : Eip712.encode_value "interest" (Eip712.Json.num 5) []
      = .ok (Eip712.encode_uint256_u64 5) := by
    rw [Eip712.encode_value.eq_def]
    simp [Eip712.strPrefix, Eip712.encodeUintValue]
  exact ⟨hval, by rw [hval]; simp⟩

/-- Witness for C5: an unrecognized tag is rejected; `"uintXYZ"` is not. -/
theorem encode_value_unsupported_iff_witness :
    Eip712.encode_value "flurb" (Eip712.Json.num 0) []
      = .error (.unsupportedType "flurb")
    ∧ Eip712.encode_value "uintXYZ" (Eip712.Json.num 7) []
      ≠ .error (.unsupportedType "uintXYZ") :=
  ⟨encode_value_unsupported_iff.1 "flurb" (Eip712.Json.num 0) [] (by decide),
   encode_value_unsupported_iff.2 "uintXYZ" (Eip712.Json.num 7) [] (by decide)
     (by decide) "uintXYZ"⟩

/-! ## Transaction payload lemmas (for C2 and C7) -/

/-- The unsigned 9-item list as frozen claim C2 words it: `gasPrice` decoded
    with its leading zero bytes stripped, exactly like `value`. Follows the
    claim's words, for comparison with the source's `unsignedTxItems`. -/
def unsignedTxItemsClaim (tx : Transaction) : Option (List (List Nat)) :=
  match Tx.hex_to_bytes tx.gas_price true, Tx.hex_to_bytes tx.to_address false,
      Tx.hex_to_bytes tx.value true, Tx.hex_to_bytes tx.data false with
  | some gp, some tob, some vb, some db =>
    some [Rlp.encode_integer tx.nonce, Rlp.encode_string gp,
          Rlp.encode_integer tx.gas_limit, Rlp.encode_string tob,
          Rlp.encode_string vb, Rlp.encode_string db,
          Rlp.encode_integer tx.chain_id, Rlp.encode_string [], Rlp.encode_string []]
  | _, _, _, _ => none

/-- The claim's version of the unsigned payload (gasPrice stripped). -/
def buildUnsignedPayloadClaim (tx : Transaction) : Option (List Nat) :=
  (unsignedTxItemsClaim tx).map Rlp.encode_list

theorem stripZeroPairs_fix (l : List Char) (hne : ∀ rest : List Char, l ≠ '0' :: '0' :: rest) :
    Tx.stripZeroPairs l = l := by
  rw [Tx.stripZeroPairs.eq_def]
  split
  · rename_i rest
    exact absurd rfl (hne rest)
  · rfl

theorem stripZeroPairs_no00 (l : List Char) (rest : List Char) :
    Tx.stripZeroPairs l ≠ '0' :: '0' :: rest := by
  induction l using Tx.stripZeroPairs.induct generalizing rest with
  | case1 r ih =>
    rw [Tx.stripZeroPairs]
    exact ih rest
  | case2 l hne =>
    rw [stripZeroPairs_fix l (fun r h => hne r h)]
    exact fun h => hne rest h

theorem stripZeroPairs_mem (l : List Char) : ∀ c ∈ Tx.stripZeroPairs l, c ∈ l := by
  induction l using Tx.stripZeroPairs.induct with
  | case1 r ih =>
    intro c hc
    rw [Tx.stripZeroPairs] at hc
    exact List.mem_cons_of_mem _ (List.mem_cons_of_mem _ (ih c hc))
  | case2 l hne =>
    intro c hc
    rwa [stripZeroPairs_fix l (fun r h => hne r h)] at hc

theorem hexDigit_eq_zero (c : Char) (h : Eip712.hexDigit? c = some 0) : c = '0' := by
  unfold Eip712.hexDigit? at h
  split_ifs at h with h1 h2 h3 <;> simp only [Option.some.injEq, reduceCtorEq] at h
  · have hlo : 48 ≤ c.toNat := h1.1
    have heq : c.toNat = 48 := by omega
    exact Char.ext (UInt32.ext heq)
  · have hlo : 97 ≤ c.toNat := h2.1
    exact absurd h (by omega)
  · have hlo : 65 ≤ c.toNat := h3.1
    exact absurd h (by omega)

/-- With `strip_leading_zeros = true` the decoded bytes never start with a
    zero byte (for well-formed hex input). -/
theorem txHexStrip_head (s : String)
    (hvalid : ∀ c ∈ Tx.cleanHex s, (Eip712.hexDigit? c).isSome)
    (bs : List Nat) (hbs : Tx.hex_to_bytes s true = some bs) :
    bs.head? ≠ some 0 := by
  have hvalid2 : ∀ c ∈ Tx.stripZeroPairs (Tx.cleanHex s), (Eip712.hexDigit? c).isSome :=
    fun c hc => hvalid c (stripZeroPairs_mem _ c hc)
  have hbs2 : (if Tx.stripZeroPairs (Tx.cleanHex s) = []
        ∨ Tx.stripZeroPairs (Tx.cleanHex s) = ['0']
      then some ([] : List Nat)
      else Tx.hexPairs (Tx.stripZeroPairs (Tx.cleanHex s))) = some bs := hbs
  by_cases hcond : Tx.stripZeroPairs (Tx.cleanHex s) = []
      ∨ Tx.stripZeroPairs (Tx.cleanHex s) = ['0']
  · rw [if_pos hcond] at hbs2
    obtain rfl : ([] : List Nat) = bs := by injection hbs2
    simp
  · rw [if_neg hcond] at hbs2
    rcases hsp : Tx.stripZeroPairs (Tx.cleanHex s) with _ | ⟨c1, t⟩
    · exact absurd (Or.inl hsp) hcond
    rcases t with _ | ⟨c2, rest⟩
    · rw [hsp] at hbs2 hvalid2
      rcases hd1 : Eip712.hexDigit? c1 with _ | a
      · have := hvalid2 c1 (by simp)
        rw [hd1] at this
        simp at this
      · rw [Tx.hexPairs, hd1] at hbs2
        simp only [Option.map_some', Option.some.injEq] at hbs2
        subst hbs2
        intro hhead
        simp only [List.head?_cons, Option.some.injEq] at hhead
        subst hhead
        have hc1 : c1 = '0' := hexDigit_eq_zero c1 hd1
        subst hc1
        exact hcond (Or.inr hsp)
    · rw [hsp] at hbs2 hvalid2
      have h1s := hvalid2 c1 (by simp)
      have h2s := hvalid2 c2 (by simp)
      rcases hd1 : Eip712.hexDigit? c1 with _ | a
      · rw [hd1] at h1s; simp at h1s
      rcases hd2 : Eip712.hexDigit? c2 with _ | b
      · rw [hd2] at h2s; simp at h2s
      rw [Tx.hexPairs, Tx.hexPair?, hd1, hd2] at hbs2
      rcases hrest : Tx.hexPairs rest with _ | more
      · rw [hrest] at hbs2
        simp at hbs2
      · rw [hrest] at hbs2
        simp only [Option.map_some', Option.some.injEq] at hbs2
        subst hbs2
        intro hhead
        simp only [List.head?_cons, Option.some.injEq] at hhead
        have hab : a = 0 ∧ b = 0 := by omega
        have hc1 : c1 = '0' := hexDigit_eq_zero c1 (hab.1 ▸ hd1)
        have hc2 : c2 = '0' := hexDigit_eq_zero c2 (hab.2 ▸ hd2)
        subst hc1
        subst hc2
        exact stripZeroPairs_no00 (Tx.cleanHex s) rest hsp

/-- C2 (amended): the unsigned signing payload is the RLP encoding of the
    9-tuple `[nonce, gasPrice, gasLimit, to, value, data, chainId, "", ""]`;
    only `value` is decoded with `strip_leading_zeros = true`, so its `"0x0"`
    reduces to the empty byte string and its bytes never begin with a zero
    byte; `gasPrice` (like `to` and `data`) is hex-decoded without
    stripping. -/
theorem buildUnsignedPayload_spec :
    (∀ (tx : Transaction) (gp tob vb db : List Nat),
      Tx.hex_to_bytes tx.gas_price false = some gp →
      Tx.hex_to_bytes tx.to_address false = some tob →
      Tx.hex_to_bytes tx.value true = some vb →
      Tx.hex_to_bytes tx.data false = some db →
      buildUnsignedPayload tx = some (Rlp.encode_list
        [Rlp.encode_integer tx.nonce, Rlp.encode_string gp,
         Rlp.encode_integer tx.gas_limit, Rlp.encode_string tob,
         Rlp.encode_string vb, Rlp.encode_string db,
         Rlp.encode_integer tx.chain_id, Rlp.encode_string [], Rlp.encode_string []]))
    ∧ Tx.hex_to_bytes "0x0" true = some []
    ∧ (∀ s : String, (∀ c ∈ Tx.cleanHex s, (Eip712.hexDigit? c).isSome) →
        ∀ bs, Tx.hex_to_bytes s true = some bs → bs.head? ≠ some 0) := by
  refine ⟨?_, by decide, txHexStrip_head⟩
  intro tx gp tob vb db hgp hto hvb hdb
  simp [buildUnsignedPayload, unsignedTxItems, hgp, hto, hvb, hdb]

/-- Counterexample for C2 as frozen: with `gasPrice = "0x0"` the source
    encodes the gasPrice RLP item as the literal byte `0x00` (no stripping),
    so the payload differs from the claim's stripped-gasPrice payload. -/
theorem tx_gas_price_not_stripped :
    Tx.hex_to_bytes "0x0" false = some [0x00]
    ∧ unsignedTxItems (Transaction.mk 0 "0x0" 0 "0x" "0x0" "0x" 137)
      = some [[0x80], [0x00], [0x80], [0x80], [0x80], [0x80], [0x81, 0x89], [0x80], [0x80]]
    ∧ buildUnsignedPayload (Transaction.mk 0 "0x0" 0 "0x" "0x0" "0x" 137)
      ≠ buildUnsignedPayloadClaim (Transaction.mk 0 "0x0" 0 "0x" "0x0" "0x" 137) := by
  refine ⟨by decide, by decide, by decide⟩

/-- Witness for C2 at a concrete transaction and a concrete stripped hex. -/
theorem buildUnsignedPayload_spec_witness :
    buildUnsignedPayload (Transaction.mk 1 "0x09184e72a000" 100000
        "0x3535353535353535353535353535353535353535" "0x0" "0x" 137)
      = some [231, 1, 134, 9, 24, 78, 114, 160, 0, 131, 1, 134, 160, 148,
              53, 53, 53, 53, 53, 53, 53, 53, 53, 53, 53, 53, 53, 53, 53, 53,
              53, 53, 53, 53, 128, 128, 129, 137, 128, 128]
    ∧ ([255] : List Nat).head? ≠ some 0 := by
  constructor
  · rw [buildUnsignedPayload_spec.1 _ [9, 24, 78, 114, 160, 0] (List.replicate 20 53)
      [] [] (by decide) (by decide) (by decide) (by decide)]
    exact congrArg some (by decide)
  · exact buildUnsignedPayload_spec.2.2 "0x00ff" (by decide) [255] (by decide)

/-- C7: `Transaction::sign` hashes exactly `buildUnsignedPayload(tx)` with
    Keccak-256, signs that hash, sets `v = chainId*2 + 35 + recoveryId`
    (309 or 310 for chainId 137), and returns the hex of the RLP list
    `[nonce, gasPrice, gasLimit, to, value, data, v, r, s]` with a `0x`
    prefix. `signHash` is the external secp256k1 signing primitive for the
    private key; its recovery id is 0 or 1. -/
theorem transaction_sign_spec (signHash : List Nat → SigComponents) (tx : Transaction)
    (gp tob vb db payload : List Nat)
    (hgp : Tx.hex_to_bytes tx.gas_price false = some gp)
    (hto : Tx.hex_to_bytes tx.to_address false = some tob)
    (hvb : Tx.hex_to_bytes tx.value true = some vb)
    (hdb : Tx.hex_to_bytes tx.data false = some db)
    (hpayload : payload = Rlp.encode_list
      [Rlp.encode_integer tx.nonce, Rlp.encode_string gp,
       Rlp.encode_integer tx.gas_limit, Rlp.encode_string tob,
       Rlp.encode_string vb, Rlp.encode_string db,
       Rlp.encode_integer tx.chain_id, Rlp.encode_string [], Rlp.encode_string []])
    (hrecid : (signHash (Keccak.keccak256 payload)).v ≤ 1) :
    buildUnsignedPayload tx = some payload
    ∧ Transaction.sign signHash tx = some (Tx.bytes_to_hex (Rlp.encode_list
        [Rlp.encode_integer tx.nonce, Rlp.encode_string gp,
         Rlp.encode_integer tx.gas_limit, Rlp.encode_string tob,
         Rlp.encode_string vb, Rlp.encode_string db,
         Rlp.encode_integer (tx.chain_id * 2 + 35 + (signHash (Keccak.keccak256 payload)).v),
         Rlp.encode_string (signHash (Keccak.keccak256 payload)).r,
         Rlp.encode_string (signHash (Keccak.keccak256 payload)).s]) true)
    ∧ (tx.chain_id = 137 →
        tx.chain_id * 2 + 35 + (signHash (Keccak.keccak256 payload)).v = 309
        ∨ tx.chain_id * 2 + 35 + (signHash (Keccak.keccak256 payload)).v = 310) := by
  subst hpayload
  refine ⟨?_, ?_, ?_⟩
  · simp [buildUnsignedPayload, unsignedTxItems, hgp, hto, hvb, hdb]
  · simp only [Transaction.sign, hgp, hto, hvb, hdb]
    have hv : (signHash (Keccak.keccak256 (Rlp.encode_list
        [Rlp.encode_integer tx.nonce, Rlp.encode_string gp,
         Rlp.encode_integer tx.gas_limit, Rlp.encode_string tob,
         Rlp.encode_string vb, Rlp.encode_string db,
         Rlp.encode_integer tx.chain_id, Rlp.encode_string [],
         Rlp.encode_string []]))).v + tx.chain_id * 2 + 35
      = tx.chain_id * 2 + 35 + (signHash (Keccak.keccak256 (Rlp.encode_list
        [Rlp.encode_integer tx.nonce, Rlp.encode_string gp,
         Rlp.encode_integer tx.gas_limit, Rlp.encode_string tob,
         Rlp.encode_string vb, Rlp.encode_string db,
         Rlp.encode_integer tx.chain_id, Rlp.encode_string [],
         Rlp.encode_string []]))).v := by ring
    rw [hv]
  · intro h137
    omega

/-- Witness for C7: a concrete transaction signed with a constant stand-in
    signature primitive; the signed transaction equals the expected hex and
    `v` lands on 309 for chainId 137, recovery id 0. -/
theorem transaction_sign_spec_witness :
    Transaction.sign
        (fun _ => SigComponents.mk (List.replicate 32 1) (List.replicate 32 2) 0)
        (Transaction.mk 1 "0x09184e72a000" 100000
          "0x3535353535353535353535353535353535353535" "0x0" "0x" 137)
      = some "0xf868018609184e72a000830186a09435353535353535353535353535353535353535358080820135a00101010101010101010101010101010101010101010101010101010101010101a00202020202020202020202020202020202020202020202020202020202020202"
    ∧ (137 : Nat) * 2 + 35 + 0 = 309 := by
  have h := transaction_sign_spec
    (fun _ => SigComponents.mk (List.replicate 32 1) (List.replicate 32 2) 0)
    (Transaction.mk 1 "0x09184e72a000" 100000
      "0x3535353535353535353535353535353535353535" "0x0" "0x" 137)
    [9, 24, 78, 114, 160, 0] (List.replicate 20 53) [] [] _
    (by decide) (by decide) (by decide) (by decide) rfl (by decide)
  constructor
  · rw [h.2.1]
    apply congrArg some
    set_option maxRecDepth 10000 in decide
  · rcases h.2.2 rfl with h309 | h310
    · exact h309
    · exact absurd h310 (by decide)

/-! ## Base64 and L2 signature lemmas (for C8) -/

theorem b64Encode_ne_nil (l : List Nat) (hl : l ≠ []) : L2.b64Encode l ≠ [] := by
  rcases l with _ | ⟨a, _ | ⟨b, _ | ⟨c, rest⟩⟩⟩
  · exact absurd rfl hl
  · simp [L2.b64Encode]
  · simp [L2.b64Encode]
  · simp [L2.b64Encode]

theorem b64Encode_getLast :
    ∀ (n : Nat) (l : List Nat), l.length ≤ n → l.length % 3 = 2 →
      (L2.b64Encode l).getLast? = some '=' := by
  intro n
  induction n with
  | zero =>
    intro l hl h2
    have : l.length = 0 := by omega
    omega
  | succ m ih =>
    intro l hl h2
    rcases l with _ | ⟨a, _ | ⟨b, _ | ⟨c, rest⟩⟩⟩
    · simp at h2
    · simp at h2
    · simp [L2.b64Encode]
    · rw [L2.b64Encode]
      have hrest2 : rest.length % 3 = 2 := by
        simp at h2
        omega
      have hrl : rest.length ≤ m := by
        simp at hl
        omega
      have hrne : rest ≠ [] := by
        intro he
        rw [he] at hrest2
        simp at hrest2
      obtain ⟨e, es, hE⟩ := List.exists_cons_of_ne_nil (b64Encode_ne_nil rest hrne)
      have hlast := ih rest hrl hrest2
      rw [hE] at hlast ⊢
      rw [List.getLast?_cons_cons, List.getLast?_cons_cons, List.getLast?_cons_cons,
        List.getLast?_cons_cons]
      exact hlast

theorem urlSafe_no_plus_slash (chars : List Char) :
    ∀ c ∈ L2.urlSafe chars, c ≠ '+' ∧ c ≠ '/' := by
  intro c hc
  simp only [L2.urlSafe, List.mem_map] at hc
  obtain ⟨x, _, rfl⟩ := hc
  refine ⟨?_, ?_⟩ <;>
    (split_ifs with h1 h2 <;> first | decide | exact h1 | exact h2)

theorem urlSafe_getLast (chars : List Char) (h : chars.getLast? = some '=') :
    (L2.urlSafe chars).getLast? = some '=' := by
  rw [L2.urlSafe, List.getLast?_map, h]
  rfl

/-- C8: the L2 header signature is computed over
    `timestamp ‖ method ‖ path ‖ body` with no separators; the URL-safe
    base64 shared secret is restored to standard base64 (`-`/`_` swapped
    back, `=`-padded to a multiple of 4) before decoding — for the all-zero
    32-byte secret that restoration is the identity and decodes to 32 zero
    bytes; and the emitted HMAC-SHA256 signature (any 32-byte MAC) is
    URL-safe base64 containing no `'+'` or `'/'` and retaining its trailing
    `'='` padding. -/
theorem create_l2_signature_spec :
    (∀ (timestamp : Nat) (method path body : String),
      L2.l2Message timestamp method path body
        = toString timestamp ++ method ++ path ++ body)
    ∧ L2.restore_secret "AAAAAAAAAAAAAAAAAAAAAAAAAAAAAAAAAAAAAAAAAAA="
        = "AAAAAAAAAAAAAAAAAAAAAAAAAAAAAAAAAAAAAAAAAAA="
    ∧ L2.restore_secret "ab-_" = "ab+/"
    ∧ L2.restore_secret "AAAAA" = "AAAAA==="
    ∧ L2.b64Decode (L2.restore_secret "AAAAAAAAAAAAAAAAAAAAAAAAAAAAAAAAAAAAAAAAAAA=").data
        = some (List.replicate 32 0)
    ∧ (∀ (hmacSha256 : List Nat → List Nat → List Nat)
        (api_secret : String) (timestamp : Nat) (method path body sig : String),
        (∀ key msg, (hmacSha256 key msg).length = 32) →
        L2.create_l2_signature hmacSha256 api_secret timestamp method path body = some sig →
        (∀ c ∈ sig.data, c ≠ '+' ∧ c ≠ '/') ∧ sig.data.getLast? = some '=') := by
  refine ⟨fun _ _ _ _ => rfl, by decide, by decide, by decide, by decide, ?_⟩
  intro hmacSha256 api_secret timestamp method path body sig hlen hsig
  rcases hdec : L2.b64Decode (L2.restore_secret api_secret).data with _ | secret
  · simp only [L2.create_l2_signature, hdec] at hsig
    exact absurd hsig (by simp)
  · simp only [L2.create_l2_signature, hdec, Option.some.injEq] at hsig
    subst hsig
    have hdata : (String.mk (L2.urlSafe (L2.b64Encode (hmacSha256 secret
        (Eip712.strBytes (L2.l2Message timestamp method path body)))))).data
        = L2.urlSafe (L2.b64Encode (hmacSha256 secret
            (Eip712.strBytes (L2.l2Message timestamp method path body)))) := rfl
    rw [hdata]
    refine ⟨urlSafe_no_plus_slash _, urlSafe_getLast _ ?_⟩
    apply b64Encode_getLast 32
    · rw [hlen]
    · rw [hlen]

/-- Witness for C8: the all-zero 32-byte MAC with the all-zero secret and
    message `"1GET/"` (timestamp 1, method GET, path `/`, empty body)
    produces the padded URL-safe signature `"AAA...A="`. -/
theorem create_l2_signature_spec_witness :
    L2.l2Message 1 "GET" "/" "" = "1GET/"
    ∧ L2.create_l2_signature (fun _ _ => List.replicate 32 0)
        "AAAAAAAAAAAAAAAAAAAAAAAAAAAAAAAAAAAAAAAAAAA=" 1 "GET" "/" ""
      = some "AAAAAAAAAAAAAAAAAAAAAAAAAAAAAAAAAAAAAAAAAAA="
    ∧ (∀ c ∈ ("AAAAAAAAAAAAAAAAAAAAAAAAAAAAAAAAAAAAAAAAAAA=" : String).data,
        c ≠ '+' ∧ c ≠ '/')
    ∧ ("AAAAAAAAAAAAAAAAAAAAAAAAAAAAAAAAAAAAAAAAAAA=" : String).data.getLast?
        = some '=' := by
  have hsig : L2.create_l2_signature (fun _ _ => List.replicate 32 0)
      "AAAAAAAAAAAAAAAAAAAAAAAAAAAAAAAAAAAAAAAAAAA=" 1 "GET" "/" ""
      = some "AAAAAAAAAAAAAAAAAAAAAAAAAAAAAAAAAAAAAAAAAAA=" := by decide
  have h := (create_l2_signature_spec.2.2.2.2.2 (fun _ _ => List.replicate 32 0)
    "AAAAAAAAAAAAAAAAAAAAAAAAAAAAAAAAAAAAAAAAAAA=" 1 "GET" "/" ""
    "AAAAAAAAAAAAAAAAAAAAAAAAAAAAAAAAAAAAAAAAAAA="
    (fun _ _ => by simp) hsig)
  exact ⟨by decide, hsig, h.1, h.2⟩

end Clob
